import Mathlib

/-!
# Verification of the Athena BI dashboard client utilities

Shallow embedding of the client-side pure logic of the dashboard
repository (data-transformation utilities, CSV export, page search
handlers, the axios interceptors and the auth store), with theorems
settling the specification's claims about them.

JavaScript `number` arithmetic is modelled over `ℚ` (exact rationals);
`Math.round` is modelled as `⌊x + 1/2⌋`, which agrees with JavaScript's
round-half-toward-positive-infinity on rationals.  `null`/`undefined`
are modelled as `Option.none`.
-/

namespace Dashboard

/-- The `trend` component of `calculateChange`'s result
    (string literals 'up' | 'down' | 'neutral' in the source). -/
inductive Trend where
  | up
  | down
  | neutral
deriving DecidableEq, Repr

/-- JavaScript `Math.round`: round half toward positive infinity. -/
def jsRound (q : ℚ) : ℤ := ⌊q + 1/2⌋

/-- Embedding of `calculateChange` (src/unnamed/part_003, lines 374-392).
    `!previous || previous === 0` on a number is `previous = 0` over `ℚ`;
    `Math.round(change * 10) / 10` rounds to one decimal place. -/
def calculateChange (current previous : ℚ) : ℚ × Trend :=
  if previous = 0 then (0, Trend.neutral)
  else
    let change := (current - previous) / previous * 100
    if |change| < 1/100 then (0, Trend.neutral)
    else ((jsRound (change * 10) : ℚ) / 10,
          if 0 < change then Trend.up else Trend.down)

/-- **C1, counterexample.**  The claim says that for `previous > 0` the
    trend is 'up' whenever the percentage change is positive.  At
    `current = 20001`, `previous = 20000` the change is `0.005 > 0`,
    yet the code's dead zone `|change| < 0.01` returns
    `{change: 0, trend: 'neutral'}`, not trend 'up'. -/
theorem C1_counterexample :
    calculateChange 20001 20000 = (0, Trend.neutral) ∧
    (0 : ℚ) < (20001 - 20000) / 20000 * 100 ∧
    Trend.neutral ≠ Trend.up := by
  refine ⟨?_, by norm_num, by decide⟩
  have h0 : (20000 : ℚ) ≠ 0 := by norm_num
  have hch : ((20001 : ℚ) - 20000) / 20000 * 100 = 1/200 := by norm_num
  have habs : |(1 : ℚ)/200| < 1/100 := by
    rw [abs_of_pos (by norm_num : (0 : ℚ) < 1/200)]; norm_num
  simp only [calculateChange, if_neg h0, hch, if_pos habs]

/-- The raw percentage change, the `change` local of
    `calculateChange`. -/
def pctChange (current previous : ℚ) : ℚ :=
  (current - previous) / previous * 100

/-- **C1, amended.**  For `previous > 0`, `calculateChange` returns the
    percentage change `(current-previous)/previous*100` rounded to one
    decimal place, with trend 'up' iff the change is positive and
    'down' iff it is negative — except inside the dead zone
    `|change| < 0.01`, where it returns `{change: 0, trend: 'neutral'}`
    (the rounded change is 0 there as well, so only the trend deviates
    from the original claim).  For `previous = 0` (the embedding of
    `previous == 0` or absent) the result is `{change: 0, trend:
    'neutral'}` for every `current`. -/
theorem C1_calculateChange_characterization (current previous : ℚ)
    (h : 0 < previous) :
    (calculateChange current previous).1 =
      (jsRound (pctChange current previous * 10) : ℚ) / 10 ∧
    (1/100 ≤ |pctChange current previous| →
      ((calculateChange current previous).2 = Trend.up ↔
        0 < pctChange current previous) ∧
      ((calculateChange current previous).2 = Trend.down ↔
        pctChange current previous < 0)) ∧
    (|pctChange current previous| < 1/100 →
      calculateChange current previous = (0, Trend.neutral)) ∧
    (∀ c : ℚ, calculateChange c 0 = (0, Trend.neutral)) := by
  simp only [pctChange]
  set change := (current - previous) / previous * 100 with hch
  have h0 : previous ≠ 0 := ne_of_gt h
  have hdef : calculateChange current previous =
      (if |change| < 1/100 then ((0 : ℚ), Trend.neutral)
       else ((jsRound (change * 10) : ℚ) / 10,
             if 0 < change then Trend.up else Trend.down)) := by
    simp only [calculateChange, if_neg h0]
  by_cases hz : |change| < 1/100
  · have hround : jsRound (change * 10) = 0 := by
      have h1 : -(1/100) < change := neg_lt_of_abs_lt hz
      have h2 : change < 1/100 := lt_of_abs_lt hz
      have : (0 : ℚ) ≤ change * 10 + 1/2 := by nlinarith
      have : change * 10 + 1/2 < 1 := by nlinarith
      rw [jsRound, Int.floor_eq_zero_iff]
      constructor <;> [skip; exact this]
      · nlinarith [neg_lt_of_abs_lt hz]
    refine ⟨?_, ?_, ?_, fun c => by simp [calculateChange]⟩
    · rw [hdef, if_pos hz, hround]; norm_num
    · intro hc; exact absurd hz (not_lt_of_le hc)
    · intro _; rw [hdef, if_pos hz]
  · refine ⟨?_, ?_, ?_, fun c => by simp [calculateChange]⟩
    · rw [hdef, if_neg hz]
    · intro _
      rw [hdef, if_neg hz]
      push_neg at hz
      rcases lt_trichotomy change 0 with hlt | heq | hgt
      · have hn : ¬ (0 < change) := lt_asymm hlt
        rw [if_neg hn]
        exact ⟨⟨fun hud => absurd hud (by simp), fun hc => absurd hc hn⟩,
               ⟨fun _ => hlt, fun _ => rfl⟩⟩
      · exfalso; rw [heq] at hz; simp at hz
        exact absurd hz (by norm_num)
      · rw [if_pos hgt]
        exact ⟨⟨fun _ => hgt, fun _ => rfl⟩,
               ⟨fun hud => absurd hud (by simp), fun hc => absurd hc (lt_asymm hgt)⟩⟩
    · intro hc; exact absurd hc hz

/-- Witness for C1: at `current = 150`, `previous = 100` the change is
    `50`, outside the dead zone, and the characterization applies. -/
theorem C1_witness :
    (0 : ℚ) < 100 ∧
    ((calculateChange 150 100).1 =
        (jsRound (pctChange 150 100 * 10) : ℚ) / 10 ∧
     (1/100 ≤ |pctChange 150 100| →
       ((calculateChange 150 100).2 = Trend.up ↔ 0 < pctChange 150 100) ∧
       ((calculateChange 150 100).2 = Trend.down ↔ pctChange 150 100 < 0)) ∧
     (|pctChange 150 100| < 1/100 →
       calculateChange 150 100 = (0, Trend.neutral)) ∧
     (∀ c : ℚ, calculateChange c 0 = (0, Trend.neutral))) :=
  ⟨by norm_num, C1_calculateChange_characterization 150 100 (by norm_num)⟩

/-! ## Aging buckets (`bucketValues`, src/unnamed/part_003 lines 452-470) -/

/-- A bucket `{label, min, max}`.  `max = none` models the JavaScript
    value `Infinity` used by the `8+ days` bucket. -/
structure Bucket where
  label : String
  min : ℚ
  max : Option ℚ
deriving DecidableEq, Repr

/-- `v <= max`, where `max = none` (Infinity) is satisfied by every
    number. -/
def leOpt (v : ℚ) : Option ℚ → Prop
  | some m => v ≤ m
  | none => True

instance (v : ℚ) : (o : Option ℚ) → Decidable (leOpt v o)
  | some m => inferInstanceAs (Decidable (v ≤ m))
  | none => inferInstanceAs (Decidable True)

/-- The membership test of the source loop:
    `value >= bucket.min && value <= bucket.max`. -/
def inBucket (v : ℚ) (b : Bucket) : Prop := b.min ≤ v ∧ leOpt v b.max

instance (v : ℚ) (b : Bucket) : Decidable (inBucket v b) :=
  inferInstanceAs (Decidable (_ ∧ _))

/-- One pass of the inner loop of `bucketValues`: increment the counter
    of every bucket whose range contains `v`. -/
def bumpCounts (buckets : List Bucket) (counts : List ℕ) (v : ℚ) : List ℕ :=
  (buckets.zip counts).map fun bc => if inBucket v bc.1 then bc.2 + 1 else bc.2

/-- Embedding of `bucketValues`: start all counters at 0, walk the
    values bumping every matching bucket, and pair each label with its
    final counter. -/
def bucketValues (values : List ℚ) (buckets : List Bucket) :
    List (String × ℕ) :=
  let counts := values.foldl (bumpCounts buckets) (buckets.map fun _ => 0)
  (buckets.zip counts).map fun bc => (bc.1.label, bc.2)

/-- The `BUCKETS` constant of `UnsignedNotesAgingChart`
    (src/unnamed/part_010 lines 127-132); the display-only `color`
    field is omitted. -/
def BUCKETS : List Bucket :=
  [⟨"0-1 days", 0, some 1⟩,
   ⟨"2-3 days", 2, some 3⟩,
   ⟨"4-7 days", 4, some 7⟩,
   ⟨"8+ days", 8, none⟩]

theorem zip_map_map {α β γ : Type} (l : List α) (g : α → β)
    (h : α × β → γ) :
    (l.zip (l.map g)).map h = l.map fun b => h (b, g b) := by
  induction l with
  | nil => rfl
  | cons x xs ih => simp [List.zip_cons_cons, ih]

theorem foldl_bumpCounts (buckets : List Bucket) (values : List ℚ)
    (g : Bucket → ℕ) :
    values.foldl (bumpCounts buckets) (buckets.map g) =
      buckets.map fun b =>
        g b + values.countP (fun v => decide (inBucket v b)) := by
  induction values generalizing g with
  | nil => simp
  | cons v vs ih =>
    have hstep : bumpCounts buckets (buckets.map g) v =
        buckets.map fun b => if inBucket v b then g b + 1 else g b := by
      rw [bumpCounts, zip_map_map]
    rw [List.foldl_cons, hstep, ih]
    apply List.map_congr_left
    intro b _
    by_cases hb : inBucket v b <;>
      simp [hb, List.countP_cons, Nat.add_comm, Nat.add_assoc, Nat.add_left_comm]

/-- Closed form: each bucket's count is the number of input values its
    inclusive range contains. -/
theorem bucketValues_eq_countP (values : List ℚ) (buckets : List Bucket) :
    bucketValues values buckets =
      buckets.map fun b =>
        (b.label, values.countP (fun v => decide (inBucket v b))) := by
  rw [bucketValues]
  have h := foldl_bumpCounts buckets values (fun _ => 0)
  simp only [h, zip_map_map]
  simp

theorem countP_eq_zero_of_none {α : Type} (p : α → Bool) (l : List α)
    (h : ∀ a ∈ l, ¬ p a = true) : l.countP p = 0 := by
  induction l with
  | nil => rfl
  | cons x xs ih =>
    rw [List.countP_cons, if_neg (h x (by simp))]
    simpa using ih fun a ha => h a (by simp [ha])

theorem countP_eq_one_of_exactly_one {α : Type} (p : α → Bool)
    (l : List α) (hex : ∃ a ∈ l, p a = true)
    (hdisj : l.Pairwise fun a b => ¬ (p a = true ∧ p b = true)) :
    l.countP p = 1 := by
  induction l with
  | nil => simp at hex
  | cons x xs ih =>
    rw [List.countP_cons]
    rcases List.pairwise_cons.mp hdisj with ⟨hx, hxs⟩
    by_cases hpx : p x = true
    · rw [if_pos hpx]
      have : xs.countP p = 0 :=
        countP_eq_zero_of_none p xs fun a ha hpa => hx a ha ⟨hpx, hpa⟩
      omega
    · rw [if_neg hpx]
      rcases hex with ⟨a, ha, hpa⟩
      rcases List.mem_cons.mp ha with rfl | hmem
      · exact absurd hpa hpx
      · simpa using ih ⟨a, hmem, hpa⟩ hxs

theorem sum_map_indicator (v : ℚ) (buckets : List Bucket) :
    (buckets.map fun b =>
        if decide (inBucket v b) = true then (1 : ℕ) else 0).sum =
      buckets.countP fun b => decide (inBucket v b) := by
  induction buckets with
  | nil => rfl
  | cons b bs ih =>
    rw [List.map_cons, List.sum_cons, List.countP_cons, ih]
    by_cases hb : decide (inBucket v b) = true <;> simp [hb, Nat.add_comm]

theorem sum_counts_swap (values : List ℚ) (buckets : List Bucket) :
    (buckets.map fun b =>
        values.countP (fun v => decide (inBucket v b))).sum =
      (values.map fun v =>
        buckets.countP (fun b => decide (inBucket v b))).sum := by
  induction values with
  | nil => simp
  | cons v vs ih =>
    have hsplit : (buckets.map fun b =>
        (v :: vs).countP (fun w => decide (inBucket w b))).sum =
        (buckets.map fun b =>
          vs.countP (fun w => decide (inBucket w b))).sum +
        (buckets.map fun b =>
          if decide (inBucket v b) = true then (1 : ℕ) else 0).sum := by
      induction buckets with
      | nil => rfl
      | cons b bs ihb =>
        simp only [List.map_cons, List.sum_cons, ihb, List.countP_cons]
        by_cases hb : decide (inBucket v b) = true <;> simp [hb] <;> omega
    rw [hsplit, sum_map_indicator, ih, List.map_cons, List.sum_cons]
    omega

/-- **C2.**  When the buckets' inclusive ranges are pairwise disjoint
    and jointly cover every value of the input list, the bucket counts
    returned by `bucketValues` sum to the length of the input list
    (each value lands in exactly one bucket, so it is counted exactly
    once). -/
theorem C2_bucketValues_partition_sum (values : List ℚ)
    (buckets : List Bucket)
    (hcover : ∀ v ∈ values, ∃ b ∈ buckets, inBucket v b)
    (hdisj : buckets.Pairwise fun b b' =>
      ∀ v : ℚ, ¬ (inBucket v b ∧ inBucket v b')) :
    ((bucketValues values buckets).map Prod.snd).sum = values.length := by
  rw [bucketValues_eq_countP]
  have hmap : ((buckets.map fun b =>
      (b.label, values.countP (fun v => decide (inBucket v b)))).map
        Prod.snd) =
      buckets.map fun b => values.countP (fun v => decide (inBucket v b)) := by
    rw [List.map_map]; rfl
  rw [hmap, sum_counts_swap]
  have hone : ∀ v ∈ values,
      (buckets.countP fun b => decide (inBucket v b)) = 1 := by
    intro v hv
    apply countP_eq_one_of_exactly_one
    · rcases hcover v hv with ⟨b, hb, hin⟩
      exact ⟨b, hb, by simpa using hin⟩
    · refine hdisj.imp ?_
      intro b b' hnb hcontra
      exact hnb v ⟨by simpa using hcontra.1, by simpa using hcontra.2⟩
  calc (values.map fun v =>
          buckets.countP fun b => decide (inBucket v b)).sum
      = (values.map fun _ => (1 : ℕ)).sum := by
        apply congrArg
        exact List.map_congr_left hone
    _ = values.length := by simp

/-- Two inclusive ranges are disjoint when the first ends strictly
    before the second begins. -/
theorem disjoint_of_max_lt_min (b b' : Bucket) (m : ℚ)
    (hm : b.max = some m) (h : m < b'.min) :
    ∀ v : ℚ, ¬ (inBucket v b ∧ inBucket v b') := by
  rintro v ⟨⟨_, h2⟩, h3, _⟩
  rw [hm] at h2
  simp only [leOpt] at h2
  linarith

/-- The four aging buckets are pairwise disjoint. -/
theorem BUCKETS_pairwise_disjoint : BUCKETS.Pairwise fun b b' =>
    ∀ v : ℚ, ¬ (inBucket v b ∧ inBucket v b') := by
  rw [BUCKETS]
  refine List.Pairwise.cons ?_ (List.Pairwise.cons ?_
    (List.Pairwise.cons ?_ (List.pairwise_singleton _ _)))
  · intro b hb
    simp only [List.mem_cons, List.not_mem_nil, or_false] at hb
    rcases hb with rfl | rfl | rfl
    · exact disjoint_of_max_lt_min _ _ 1 rfl (by norm_num)
    · exact disjoint_of_max_lt_min _ _ 1 rfl (by norm_num)
    · exact disjoint_of_max_lt_min _ _ 1 rfl (by norm_num)
  · intro b hb
    simp only [List.mem_cons, List.not_mem_nil, or_false] at hb
    rcases hb with rfl | rfl
    · exact disjoint_of_max_lt_min _ _ 3 rfl (by norm_num)
    · exact disjoint_of_max_lt_min _ _ 3 rfl (by norm_num)
  · intro b hb
    simp only [List.mem_cons, List.not_mem_nil, or_false] at hb
    rcases hb with rfl
    exact disjoint_of_max_lt_min _ _ 7 rfl (by norm_num)

/-- Witness for C2: the aging values `[0, 2, 5, 9]` are covered by the
    (pairwise disjoint) `BUCKETS`, and the four counts sum to 4. -/
theorem C2_witness :
    (∀ v ∈ ([0, 2, 5, 9] : List ℚ), ∃ b ∈ BUCKETS, inBucket v b) ∧
    ((bucketValues [0, 2, 5, 9] BUCKETS).map Prod.snd).sum =
      ([0, 2, 5, 9] : List ℚ).length := by
  have hcover : ∀ v ∈ ([0, 2, 5, 9] : List ℚ), ∃ b ∈ BUCKETS, inBucket v b := by
    intro v hv
    simp only [List.mem_cons, List.not_mem_nil, or_false] at hv
    rcases hv with rfl | rfl | rfl | rfl
    · exact ⟨⟨"0-1 days", 0, some 1⟩, by simp [BUCKETS], by norm_num [inBucket, leOpt]⟩
    · exact ⟨⟨"2-3 days", 2, some 3⟩, by simp [BUCKETS], by norm_num [inBucket, leOpt]⟩
    · exact ⟨⟨"4-7 days", 4, some 7⟩, by simp [BUCKETS], by norm_num [inBucket, leOpt]⟩
    · exact ⟨⟨"8+ days", 8, none⟩, by simp [BUCKETS], by norm_num [inBucket, leOpt]⟩
  exact ⟨hcover, C2_bucketValues_partition_sum [0, 2, 5, 9] BUCKETS hcover
    BUCKETS_pairwise_disjoint⟩

/-- **C8.**  `bucketValues` counts each value into exactly the buckets
    whose inclusive range contains it (first conjunct, the closed
    form); a value in no bucket is counted nowhere, so for the aging
    `BUCKETS` — which do not overlap — the input `[-1, 3/2]` (a
    negative value and a value in the gap between 1 and 2) produces
    counts summing to 0, strictly less than the input length 2. -/
theorem C8_bucketValues_uncovered :
    (∀ (values : List ℚ) (buckets : List Bucket),
      bucketValues values buckets =
        buckets.map fun b =>
          (b.label, values.countP (fun v => decide (inBucket v b)))) ∧
    ((bucketValues [-1, 3/2] BUCKETS).map Prod.snd).sum <
      ([-1, 3/2] : List ℚ).length := by
  refine ⟨bucketValues_eq_countP, ?_⟩
  rw [bucketValues_eq_countP]
  norm_num [BUCKETS, inBucket, leOpt, List.countP_cons, List.countP_nil]

/-! ## `groupByCount` (src/unnamed/part_003 lines 433-447)

The source accumulates counters in a plain object keyed by the
extracted key and then sorts `Object.entries` descending by count with
`(a, b) => b.count - a.count`.  The counter object is modelled as an
association list with unique keys (the entry order of the model is
insertion order; the claim leaves the order of ties open, so no theorem
depends on it), and the JavaScript sort as `List.mergeSort` with the
comparison `b.count ≤ a.count`. -/

/-- `counts[key] = (counts[key] || 0) + 1` on an association list. -/
def upsert : List (String × ℕ) → String → List (String × ℕ)
  | [], k => [(k, 1)]
  | (k', c) :: rest, k =>
      if k' = k then (k', c + 1) :: rest else (k', c) :: upsert rest k

/-- Embedding of `groupByCount`. -/
def groupByCount {α : Type} (data : List α) (keyFn : α → String) :
    List (String × ℕ) :=
  (data.foldl (fun acc x => upsert acc (keyFn x)) []).mergeSort
    (fun a b => decide (b.2 ≤ a.2))

theorem upsert_spec (l : List (String × ℕ)) (k : String) (f : String → ℕ)
    (hcount : ∀ e ∈ l, e.2 = f e.1)
    (hnd : (l.map Prod.fst).Nodup)
    (hf0 : k ∉ l.map Prod.fst → f k = 0) :
    ((upsert l k).map Prod.fst).Nodup ∧
    (∀ e ∈ upsert l k,
      e.2 = if e.1 = k then f e.1 + 1 else f e.1) ∧
    (∀ k', k' ∈ (upsert l k).map Prod.fst ↔
      (k' ∈ l.map Prod.fst ∨ k' = k)) := by
  induction l with
  | nil =>
    refine ⟨by simp [upsert], ?_, by simp [upsert]⟩
    intro e he
    simp only [upsert, List.mem_singleton] at he
    subst he
    simp [hf0 (by simp)]
  | cons hd rest ih =>
    obtain ⟨k', c⟩ := hd
    simp only [List.map_cons, List.nodup_cons] at hnd
    by_cases hk : k' = k
    · subst hk
      simp only [upsert, if_pos rfl]
      refine ⟨by simpa [List.nodup_cons] using hnd, ?_, by simp⟩
      intro e he
      rcases List.mem_cons.mp he with rfl | he
      · simpa using hcount (k', c) (by simp)
      · have hne : e.1 ≠ k' := by
          intro h
          exact hnd.1 (h ▸ List.mem_map_of_mem Prod.fst he)
        rw [if_neg hne]
        exact hcount e (by simp [he])
    · simp only [upsert, if_neg hk]
      have hrest := ih (fun e he => hcount e (by simp [he])) hnd.2
        (fun hnm => hf0 (by simp [hnm, Ne.symm hk]))
      refine ⟨?_, ?_, ?_⟩
      · simp only [List.map_cons, List.nodup_cons]
        refine ⟨?_, hrest.1⟩
        intro hmem
        rcases (hrest.2.2 k').mp hmem with h | h
        · exact hnd.1 h
        · exact hk h
      · intro e he
        rcases List.mem_cons.mp he with rfl | he
        · simp only []
          rw [if_neg hk]
          exact hcount (k', c) (by simp)
        · exact hrest.2.1 e he
      · intro k''
        simp only [List.map_cons, List.mem_cons]
        rw [hrest.2.2 k'']
        tauto

theorem foldl_upsert_spec {α : Type} (keyFn : α → String)
    (data : List α) :
    ∀ (acc : List (String × ℕ)) (seen : List String),
    ((acc.map Prod.fst).Nodup) →
    (∀ e ∈ acc, e.2 = seen.count e.1) →
    (∀ k, k ∈ acc.map Prod.fst ↔ k ∈ seen) →
    (((data.foldl (fun a x => upsert a (keyFn x)) acc).map Prod.fst).Nodup) ∧
    (∀ e ∈ data.foldl (fun a x => upsert a (keyFn x)) acc,
      e.2 = (seen ++ data.map keyFn).count e.1) ∧
    (∀ k, k ∈ (data.foldl (fun a x => upsert a (keyFn x)) acc).map Prod.fst ↔
      k ∈ seen ++ data.map keyFn) := by
  induction data with
  | nil =>
    intro acc seen h1 h2 h3
    simp only [List.foldl_nil, List.map_nil, List.append_nil]
    exact ⟨h1, h2, h3⟩
  | cons x xs ih =>
    intro acc seen h1 h2 h3
    have hup := upsert_spec acc (keyFn x) (fun k => seen.count k) h2 h1
      (fun hnm => List.count_eq_zero.mpr (fun hmem => hnm ((h3 _).mpr hmem)))
    have hstep := ih (upsert acc (keyFn x)) (seen ++ [keyFn x]) hup.1
      (by
        intro e he
        rw [hup.2.1 e he]
        by_cases hek : e.1 = keyFn x <;>
          simp [hek, List.count_append, List.count_cons])
      (by
        intro k
        rw [hup.2.2 k, h3 k]
        simp [List.mem_append])
    simp only [List.foldl_cons]
    refine ⟨hstep.1, ?_, ?_⟩
    · intro e he
      rw [hstep.2.1 e he]
      simp [List.count_append, List.count_cons]
    · intro k
      rw [hstep.2.2 k]
      simp [List.mem_append]

/-- **C7.**  `groupByCount` returns one entry per distinct key — the
    entry keys are exactly the keys occurring in the input, without
    duplicates — each entry carries the number of occurrences of its
    key, and the entries are sorted in descending order of count (tie
    order left open). -/
theorem C7_groupByCount_spec {α : Type} (data : List α)
    (keyFn : α → String) :
    ((groupByCount data keyFn).map Prod.fst).Nodup ∧
    (∀ k : String,
      k ∈ (groupByCount data keyFn).map Prod.fst ↔ k ∈ data.map keyFn) ∧
    (∀ e ∈ groupByCount data keyFn, e.2 = (data.map keyFn).count e.1) ∧
    (groupByCount data keyFn).Pairwise fun a b => b.2 ≤ a.2 := by
  have hbase := foldl_upsert_spec keyFn data [] [] (by simp) (by simp) (by simp)
  set entries := data.foldl (fun a x => upsert a (keyFn x)) [] with hentries
  have hperm : (groupByCount data keyFn).Perm entries :=
    List.mergeSort_perm entries _
  have hpermfst : ((groupByCount data keyFn).map Prod.fst).Perm
      (entries.map Prod.fst) := hperm.map Prod.fst
  refine ⟨?_, ?_, ?_, ?_⟩
  · exact hpermfst.nodup_iff.mpr (by simpa using hbase.1)
  · intro k
    rw [hpermfst.mem_iff]
    simpa using hbase.2.2 k
  · intro e he
    have he' : e ∈ entries := hperm.subset he
    simpa using hbase.2.1 e he'
  · have hs := @List.sorted_mergeSort (String × ℕ)
      (fun a b => decide (b.2 ≤ a.2))
      (fun a b c hab hbc => by
        simp only [decide_eq_true_eq] at hab hbc ⊢
        omega)
      (fun a b => by
        simp only [Bool.or_eq_true, decide_eq_true_eq]
        exact Nat.le_total b.2 a.2)
      entries
    exact hs.imp fun h => of_decide_eq_true h

/-! ## CSV export (src/frontend/src/utils/exportUtils.ts)

Field values are modelled as `List Char` (the characters of the
JavaScript string after `String(value)` coercion).  `joinSep` models
`Array.prototype.join`; `csvContent` is the value
`rows.join('\n')` built by `exportToCSV` from the escaped fields of
each row. -/

/-- The quoting condition of `escapeCSVValue`: the value contains a
    comma, a double quote or a newline. -/
def needsQuote (s : List Char) : Bool :=
  s.contains ',' || s.contains '"' || s.contains '\n'

/-- `value.replace(/"/g, '""')`: double every double quote. -/
def doubleQuotes : List Char → List Char
  | [] => []
  | c :: rest =>
      if c = '"' then '"' :: '"' :: doubleQuotes rest
      else c :: doubleQuotes rest

/-- Embedding of `escapeCSVValue` (exportUtils.ts lines 66-71). -/
def escapeCSVValue (s : List Char) : List Char :=
  if needsQuote s then '"' :: (doubleQuotes s ++ ['"']) else s

/-- `Array.prototype.join(sep)`. -/
def joinSep (sep : List Char) : List (List Char) → List Char
  | [] => []
  | [x] => x
  | x :: xs => x ++ sep ++ joinSep sep xs

/-- The CSV text produced by `exportToCSV` from a list of rows of raw
    field values: each field escaped, fields joined with `','`, rows
    joined with `'\n'`. -/
def csvContent (rows : List (List (List Char))) : List Char :=
  joinSep ['\n'] (rows.map fun r => joinSep [','] (r.map escapeCSVValue))

/-- Parser modes of a standard (RFC-4180 style) CSV reader. -/
inductive CSVMode where
  | unquoted
  | quoted
  | afterQuote
deriving DecidableEq, Repr

/-- State of the CSV reader: current mode, the field and row under
    construction, and the completed rows. -/
structure CSVState where
  mode : CSVMode
  field : List Char
  row : List (List Char)
  rows : List (List (List Char))
deriving DecidableEq, Repr

/-- One character of CSV reading. -/
def csvStep (st : CSVState) (c : Char) : CSVState :=
  match st.mode with
  | .unquoted =>
      if c = ',' then { st with field := [], row := st.row ++ [st.field] }
      else if c = '\n' then
        { st with field := [], row := [],
                  rows := st.rows ++ [st.row ++ [st.field]] }
      else if c = '"' ∧ st.field = [] then { st with mode := .quoted }
      else { st with field := st.field ++ [c] }
  | .quoted =>
      if c = '"' then { st with mode := .afterQuote }
      else { st with field := st.field ++ [c] }
  | .afterQuote =>
      if c = '"' then { st with mode := .quoted, field := st.field ++ ['"'] }
      else if c = ',' then
        { st with mode := .unquoted, field := [], row := st.row ++ [st.field] }
      else if c = '\n' then
        { st with mode := .unquoted, field := [], row := [],
                  rows := st.rows ++ [st.row ++ [st.field]] }
      else { st with mode := .unquoted, field := st.field ++ [c] }

/-- Run the CSV reader over a text and flush the trailing field and
    row. -/
def parseCSV (input : List Char) : List (List (List Char)) :=
  let st := input.foldl csvStep ⟨.unquoted, [], [], []⟩
  st.rows ++ [st.row ++ [st.field]]

/-- After a field's characters are consumed, the reader sits in mode
    `unquoted` (bare field) or `afterQuote` (quoted field) with the
    field's raw value accumulated. -/
def fieldDone (st : CSVState) (f : List Char) (row : List (List Char))
    (rows : List (List (List Char))) : Prop :=
  st = ⟨.unquoted, f, row, rows⟩ ∨ st = ⟨.afterQuote, f, row, rows⟩

theorem foldl_csvStep_unquoted (s : List Char)
    (hs : ∀ c ∈ s, c ≠ ',' ∧ c ≠ '"' ∧ c ≠ '\n') :
    ∀ f row rows, s.foldl csvStep ⟨.unquoted, f, row, rows⟩ =
      ⟨.unquoted, f ++ s, row, rows⟩ := by
  induction s with
  | nil => intro f row rows; simp
  | cons c cs ih =>
    intro f row rows
    obtain ⟨h1, h2, h3⟩ := hs c (by simp)
    have hstep : csvStep ⟨.unquoted, f, row, rows⟩ c =
        ⟨.unquoted, f ++ [c], row, rows⟩ := by
      simp [csvStep, h1, h2, h3]
    rw [List.foldl_cons, hstep, ih (fun d hd => hs d (by simp [hd]))]
    simp

theorem foldl_csvStep_quoted (s : List Char) :
    ∀ f row rows, (doubleQuotes s).foldl csvStep ⟨.quoted, f, row, rows⟩ =
      ⟨.quoted, f ++ s, row, rows⟩ := by
  induction s with
  | nil => intro f row rows; simp [doubleQuotes]
  | cons c cs ih =>
    intro f row rows
    by_cases hc : c = '"'
    · subst hc
      have h1 : csvStep ⟨.quoted, f, row, rows⟩ '"' =
          ⟨.afterQuote, f, row, rows⟩ := by simp [csvStep]
      have h2 : csvStep ⟨.afterQuote, f, row, rows⟩ '"' =
          ⟨.quoted, f ++ ['"'], row, rows⟩ := by simp [csvStep]
      have hd : doubleQuotes ('"' :: cs) = '"' :: '"' :: doubleQuotes cs := by
        simp [doubleQuotes]
      rw [hd, List.foldl_cons, h1, List.foldl_cons, h2, ih]
      simp
    · have h1 : csvStep ⟨.quoted, f, row, rows⟩ c =
          ⟨.quoted, f ++ [c], row, rows⟩ := by simp [csvStep, hc]
      simp only [doubleQuotes, if_neg hc, List.foldl_cons, h1, ih]
      simp

theorem needsQuote_false (s : List Char) (h : needsQuote s = false) :
    ∀ c ∈ s, c ≠ ',' ∧ c ≠ '"' ∧ c ≠ '\n' := by
  intro c hc
  simp only [needsQuote, Bool.or_eq_false_iff] at h
  obtain ⟨⟨h1, h2⟩, h3⟩ := h
  refine ⟨?_, ?_, ?_⟩ <;> rintro rfl
  · have hct : s.contains ',' = true :=
      List.contains_iff_exists_mem_beq.mpr ⟨',', hc, by simp⟩
    rw [h1] at hct
    exact Bool.false_ne_true hct
  · have hct : s.contains '"' = true :=
      List.contains_iff_exists_mem_beq.mpr ⟨'"', hc, by simp⟩
    rw [h2] at hct
    exact Bool.false_ne_true hct
  · have hct : s.contains '\n' = true :=
      List.contains_iff_exists_mem_beq.mpr ⟨'\n', hc, by simp⟩
    rw [h3] at hct
    exact Bool.false_ne_true hct

/-- Consuming one escaped field from a fresh-field state accumulates
    exactly the raw field value. -/
theorem foldl_csvStep_field (f : List Char) (row : List (List Char))
    (rows : List (List (List Char))) :
    fieldDone ((escapeCSVValue f).foldl csvStep ⟨.unquoted, [], row, rows⟩)
      f row rows := by
  rw [escapeCSVValue]
  by_cases hq : needsQuote f
  · rw [if_pos hq]
    have h1 : csvStep ⟨.unquoted, [], row, rows⟩ '"' =
        ⟨.quoted, [], row, rows⟩ := by simp [csvStep]
    have h2 : csvStep ⟨.quoted, f, row, rows⟩ '"' =
        ⟨.afterQuote, f, row, rows⟩ := by simp [csvStep]
    rw [List.foldl_cons, h1, List.foldl_append, foldl_csvStep_quoted f [] row rows]
    simp only [List.nil_append, List.foldl_cons, List.foldl_nil, h2]
    exact Or.inr rfl
  · rw [if_neg hq]
    rw [foldl_csvStep_unquoted f (needsQuote_false f (by simpa using hq)) [] row rows]
    exact Or.inl (by simp)

theorem csvStep_comma {st : CSVState} {f row rows}
    (h : fieldDone st f row rows) :
    csvStep st ',' = ⟨.unquoted, [], row ++ [f], rows⟩ := by
  rcases h with rfl | rfl <;> simp [csvStep]

theorem csvStep_newline {st : CSVState} {f row rows}
    (h : fieldDone st f row rows) :
    csvStep st '\n' = ⟨.unquoted, [], [], rows ++ [row ++ [f]]⟩ := by
  rcases h with rfl | rfl <;> simp [csvStep]

/-- Consuming one full CSV row (escaped fields joined with commas)
    accumulates exactly its fields. -/
theorem foldl_csvStep_row (r : List (List Char)) (hr : r ≠ []) :
    ∀ row rows,
    ∃ f row', row' ++ [f] = row ++ r ∧
      fieldDone ((joinSep [','] (r.map escapeCSVValue)).foldl csvStep
        ⟨.unquoted, [], row, rows⟩) f row' rows := by
  induction r with
  | nil => exact absurd rfl hr
  | cons f0 rest ih =>
    intro row rows
    cases rest with
    | nil =>
      refine ⟨f0, row, rfl, ?_⟩
      simpa [joinSep] using foldl_csvStep_field f0 row rows
    | cons f1 rest' =>
      have hjoin : joinSep [','] ((f0 :: f1 :: rest').map escapeCSVValue) =
          escapeCSVValue f0 ++ [','] ++
            joinSep [','] ((f1 :: rest').map escapeCSVValue) := by
        simp [joinSep]
      rw [hjoin, List.foldl_append, List.foldl_append]
      have hfield := foldl_csvStep_field f0 row rows
      rw [List.foldl_cons, List.foldl_nil, csvStep_comma hfield]
      obtain ⟨f, row', heq, hdone⟩ := ih (by simp) (row ++ [f0]) rows
      exact ⟨f, row', by simpa using heq, hdone⟩

/-- Consuming the full CSV text accumulates exactly the original
    rows. -/
theorem foldl_csvStep_rows (rows : List (List (List Char)))
    (h1 : rows ≠ []) (h2 : ∀ r ∈ rows, r ≠ []) :
    ∀ rows0,
    ∃ f row' rows', rows' ++ [row' ++ [f]] = rows0 ++ rows ∧
      fieldDone ((csvContent rows).foldl csvStep ⟨.unquoted, [], [], rows0⟩)
        f row' rows' := by
  induction rows with
  | nil => exact absurd rfl h1
  | cons r0 rest ih =>
    intro rows0
    cases rest with
    | nil =>
      obtain ⟨f, row', heq, hdone⟩ :=
        foldl_csvStep_row r0 (h2 r0 (by simp)) [] rows0
      refine ⟨f, row', rows0, ?_, ?_⟩
      · simpa using heq
      · simpa [csvContent, joinSep] using hdone
    | cons r1 rest' =>
      have hjoin : csvContent (r0 :: r1 :: rest') =
          joinSep [','] (r0.map escapeCSVValue) ++ ['\n'] ++
            csvContent (r1 :: rest') := by
        simp [csvContent, joinSep]
      rw [hjoin, List.foldl_append, List.foldl_append]
      obtain ⟨f0, row0, heq0, hdone0⟩ :=
        foldl_csvStep_row r0 (h2 r0 (by simp)) [] rows0
      rw [List.foldl_cons, List.foldl_nil, csvStep_newline hdone0]
      obtain ⟨f, row', rows', heq, hdone⟩ :=
        ih (by simp) (fun r hr => h2 r (by simp [hr])) (rows0 ++ [row0 ++ [f0]])
      refine ⟨f, row', rows', ?_, hdone⟩
      rw [heq, List.append_assoc]
      simp only [List.nil_append] at heq0
      simp [heq0]

/-- **C6.**  Round-trip: for every non-empty list of rows, each with at
    least one field, parsing the CSV text built by `exportToCSV`'s
    escaping and joining (fields containing a comma, quote or newline
    are wrapped in doubled-quote escaping, fields joined with `','`,
    rows joined with `'\n'`) reproduces exactly the original field
    values. -/
theorem C6_csv_round_trip (rows : List (List (List Char)))
    (h1 : rows ≠ []) (h2 : ∀ r ∈ rows, r ≠ []) :
    parseCSV (csvContent rows) = rows := by
  obtain ⟨f, row', rows', heq, hdone⟩ := foldl_csvStep_rows rows h1 h2 []
  rw [parseCSV]
  rcases hdone with hst | hst <;> rw [hst] <;> simpa using heq

/-- Witness for C6: the two-row table `[["a", "x,y"], ["p\"q", "r"]]`
    (a plain field, a comma field and a quote field) survives the
    round trip. -/
theorem C6_witness :
    ([[['a'], ['x', ',', 'y']], [['p', '"', 'q'], ['r']]] :
        List (List (List Char))) ≠ [] ∧
    parseCSV (csvContent [[['a'], ['x', ',', 'y']], [['p', '"', 'q'], ['r']]]) =
      [[['a'], ['x', ',', 'y']], [['p', '"', 'q'], ['r']]] :=
  ⟨by simp,
   C6_csv_round_trip [[['a'], ['x', ',', 'y']], [['p', '"', 'q'], ['r']]]
     (by simp) (by simp)⟩

/-! ## `exportToCSV` / `exportChartDataToCSV` public interface

A record row is an association list from column name to the field
value; `none` as a value models `null`/`undefined` (exported as the
empty string).  The functions' only side effect is triggering a browser
download of the generated text, modelled by returning
`some content`; the guarded early return (`!data || data.length === 0`)
is `none`: no file, no exception (the model is a total function) and no
other effect. -/

/-- `row[header]` followed by the
    `value !== null && value !== undefined ? String(value) : ''`
    coercion. -/
def getField (row : List (String × Option String)) (h : String) :
    List Char :=
  match row.find? (fun p => p.1 == h) with
  | some (_, some v) => v.toList
  | _ => []

/-- The `ExportOptions` parameter object; `filename` is display-only
    (its date-based default is impure and irrelevant to the content
    contract, so the model keeps the option as given). -/
structure ExportOptions where
  filename : Option String
  headers : Option (List String)
  includeHeaders : Bool
deriving DecidableEq, Repr

/-- Embedding of `exportToCSV` (exportUtils.ts lines 14-61): `none`
    input models a `null`/`undefined` data argument. -/
def exportToCSV (data : Option (List (List (String × Option String))))
    (options : ExportOptions) : Option (List Char) :=
  match data with
  | none => none
  | some rows =>
    match rows with
    | [] => none
    | first :: _ =>
      let csvHeaders := options.headers.getD (first.map Prod.fst)
      let headerRows :=
        if options.includeHeaders then [csvHeaders.map String.toList] else []
      some (csvContent
        (headerRows ++ rows.map fun row => csvHeaders.map (getField row)))

/-- Embedding of `exportChartDataToCSV` (exportUtils.ts lines 77-91):
    its own guard, then delegation to `exportToCSV` with the first
    row's keys as headers. -/
def exportChartDataToCSV
    (data : Option (List (List (String × Option String))))
    (filename : Option String) : Option (List Char) :=
  match data with
  | none => none
  | some rows =>
    match rows with
    | [] => none
    | first :: _ =>
      exportToCSV data ⟨filename, some (first.map Prod.fst), true⟩

/-- **C10.**  Calling `exportToCSV` or `exportChartDataToCSV` with a
    `null`/`undefined` or empty data array is a guarded no-op: the
    function returns `none` — no file is produced, no exception is
    raised (the embedding is total) and nothing else happens. -/
theorem C10_export_empty_guard :
    (∀ options, exportToCSV none options = none) ∧
    (∀ options, exportToCSV (some []) options = none) ∧
    (∀ filename, exportChartDataToCSV none filename = none) ∧
    (∀ filename, exportChartDataToCSV (some []) filename = none) :=
  ⟨fun _ => rfl, fun _ => rfl, fun _ => rfl, fun _ => rfl⟩

/-! ## The shared axios client (src/frontend/src/api/analytics.ts)

`ReqConfig` keeps only the `Authorization` header, the single field the
request interceptor touches; `Browser` keeps the local-storage
`access_token` entry and `window.location.pathname`, the two pieces of
browser state the response interceptor touches. -/

/-- The request configuration, restricted to the Authorization
    header. -/
structure ReqConfig where
  authHeader : Option String
deriving DecidableEq, Repr

/-- Browser state visible to the response interceptor. -/
structure Browser where
  storage : Option String
  pathname : String
deriving DecidableEq, Repr

/-- Embedding of the request interceptor (analytics.ts lines 48-59):
    `if (token)` is JavaScript truthiness, so a stored empty string is
    treated as no token. -/
def requestInterceptor (storedToken : Option String)
    (config : ReqConfig) : ReqConfig :=
  match storedToken with
  | some t =>
      if t = "" then config
      else { config with authHeader := some ("Bearer " ++ t) }
  | none => config

/-- Embedding of the response interceptor's error branch (analytics.ts
    lines 62-81): on a 401 remove the stored token, then navigate to
    `/login` unless already there. -/
def responseInterceptor (status : Option ℕ) (br : Browser) : Browser :=
  if status = some 401 then
    let br1 := { br with storage := none }
    if br1.pathname ≠ "/login" then { br1 with pathname := "/login" } else br1
  else br

/-- **C5.**  Every request through the shared client carries
    `Authorization: Bearer <token>` when a (non-empty) token is stored
    and is left untouched when none is; every 401 response clears the
    stored token and leaves the browser on `/login`, navigating only
    when not already there; non-401 responses change nothing. -/
theorem C5_interceptors (t : String) (ht : t ≠ "")
    (config : ReqConfig) (br : Browser) :
    (requestInterceptor (some t) config).authHeader =
      some ("Bearer " ++ t) ∧
    requestInterceptor none config = config ∧
    (responseInterceptor (some 401) br).storage = none ∧
    (responseInterceptor (some 401) br).pathname = "/login" ∧
    (br.pathname = "/login" →
      responseInterceptor (some 401) br = { br with storage := none }) ∧
    (∀ s, s ≠ some 401 → responseInterceptor s br = br) := by
  refine ⟨?_, rfl, ?_, ?_, ?_, ?_⟩
  · simp [requestInterceptor, ht]
  · by_cases hp : br.pathname = "/login" <;>
      simp [responseInterceptor, hp]
  · by_cases hp : br.pathname = "/login" <;>
      simp [responseInterceptor, hp]
  · intro hp
    simp [responseInterceptor, hp]
  · intro s hs
    simp [responseInterceptor, hs]

/-- Witness for C5 at the token `"tok"` and a browser sitting on
    `/dashboard` with the token stored. -/
theorem C5_witness :
    ("tok" : String) ≠ "" ∧
    ((requestInterceptor (some "tok") ⟨none⟩).authHeader =
        some ("Bearer " ++ "tok") ∧
      requestInterceptor none ⟨none⟩ = (⟨none⟩ : ReqConfig) ∧
      (responseInterceptor (some 401) ⟨some "tok", "/dashboard"⟩).storage =
        none ∧
      (responseInterceptor (some 401) ⟨some "tok", "/dashboard"⟩).pathname =
        "/login" ∧
      ((Browser.mk (some "tok") "/dashboard").pathname = "/login" →
        responseInterceptor (some 401) ⟨some "tok", "/dashboard"⟩ =
          { Browser.mk (some "tok") "/dashboard" with storage := none }) ∧
      (∀ s, s ≠ some 401 →
        responseInterceptor s ⟨some "tok", "/dashboard"⟩ =
          ⟨some "tok", "/dashboard"⟩)) :=
  ⟨by simp, C5_interceptors "tok" (by simp) ⟨none⟩ ⟨some "tok", "/dashboard"⟩⟩

/-! ## Page search handlers (src/frontend/src/pages/AuditTrailPage.tsx)

The HTTP calls are modelled as an outcome function `fetch` from
`query_type` to `Except String BIResp` (the message of a rejection, or
the response).  A handler returns the resulting component state
together with the list of query types it dispatched; the validation
branch dispatches nothing.  `Promise.all` rejects with the first
rejection to settle; the pure model picks the first rejection in array
order, and no theorem depends on which message is chosen.  Dates are
opaque (`Option ℤ`, `none` = null): a JavaScript `Date` object is
always truthy, so `!startDate || !endDate` is exactly the null test. -/

/-- A result row, restricted to the one field the handler reads
    (`unsigned_count`; `none` = field absent). -/
structure RowU where
  unsigned_count : Option ℚ
deriving DecidableEq, Repr

/-- A BI query response, restricted to its `results` array. -/
structure BIResp where
  results : List RowU
deriving DecidableEq, Repr

/-- `x || 0` on the possibly-absent `unsigned_count` field. -/
def jsOrZero : Option ℚ → ℚ
  | some x => x
  | none => 0

/-- Component state of `UnsignedNotesPage`. -/
structure UnsignedPageState where
  loading : Bool
  error : Option String
  results : Option BIResp
  countData : Option ℚ
  practitionerData : Option BIResp
deriving DecidableEq, Repr

/-- Component state of `AuditTrailPage`. -/
structure AuditPageState where
  loading : Bool
  error : Option String
  results : Option BIResp
deriving DecidableEq, Repr

/-- The three query types `UnsignedNotesPage.handleSearch` passes to
    `Promise.all`. -/
def unsignedQueries : List String :=
  ["unsigned_notes", "unsigned_notes_count", "unsigned_notes_by_practitioner"]

/-- The catch-branch state of `UnsignedNotesPage.handleSearch`: the
    data fields were cleared before dispatch and never repopulated, the
    error is set, and `finally` clears `loading`. -/
def unsignedErrorState (m : String) : UnsignedPageState :=
  { loading := false, error := some m, results := none,
    countData := none, practitionerData := none }

/-- Embedding of `UnsignedNotesPage.handleSearch` (AuditTrailPage.tsx
    lines 304-344). -/
def handleSearchUnsigned (startDate endDate : Option ℤ)
    (fetch : String → Except String BIResp) (st : UnsignedPageState) :
    UnsignedPageState × List String :=
  if startDate.isNone ∨ endDate.isNone then
    ({ st with error := some "Please select both start date and end date" },
     [])
  else
    match fetch "unsigned_notes", fetch "unsigned_notes_count",
        fetch "unsigned_notes_by_practitioner" with
    | .ok notes, .ok cnt, .ok pract =>
        ({ loading := false, error := none, results := some notes,
           countData :=
             match cnt.results with
             | r :: _ => some (jsOrZero r.unsigned_count)
             | [] => none,
           practitionerData := some pract }, unsignedQueries)
    | .error m, _, _ => (unsignedErrorState m, unsignedQueries)
    | _, .error m, _ => (unsignedErrorState m, unsignedQueries)
    | _, _, .error m => (unsignedErrorState m, unsignedQueries)

/-- Embedding of `AuditTrailPage.handleSearch` (AuditTrailPage.tsx
    lines 45-75). -/
def handleSearchAudit (startDate endDate : Option ℤ)
    (fetch : String → Except String BIResp) (st : AuditPageState) :
    AuditPageState × List String :=
  if startDate.isNone ∨ endDate.isNone then
    ({ st with error := some "Please select both start date and end date" },
     [])
  else
    match fetch "audit_trail" with
    | .ok r =>
        ({ loading := false, error := none, results := some r },
         ["audit_trail"])
    | .error m =>
        ({ loading := false, error := some m, results := none },
         ["audit_trail"])

/-- `Except.ok`-ness as a Bool. -/
def exceptOk {ε α : Type} : Except ε α → Bool
  | .ok _ => true
  | .error _ => false

/-- **C3.**  With a valid date range, one search on the Unsigned Notes
    page dispatches exactly the three queries (detail, count,
    by-practitioner) and joins on all of them: if all three succeed the
    page holds the detail and practitioner results with no error; if
    any one rejects the page holds a single page-level error and none
    of the three data fields — never a partial result set. -/
theorem C3_unsigned_join_all (s e : Option ℤ)
    (fetch : String → Except String BIResp) (st : UnsignedPageState)
    (hs : s.isSome = true) (he : e.isSome = true) :
    (handleSearchUnsigned s e fetch st).2 = unsignedQueries ∧
    ((∀ q ∈ unsignedQueries, exceptOk (fetch q) = true) →
      (handleSearchUnsigned s e fetch st).1.error = none ∧
      (handleSearchUnsigned s e fetch st).1.results.isSome = true ∧
      (handleSearchUnsigned s e fetch st).1.practitionerData.isSome = true ∧
      (handleSearchUnsigned s e fetch st).1.loading = false) ∧
    ((∃ q ∈ unsignedQueries, ¬ exceptOk (fetch q) = true) →
      (handleSearchUnsigned s e fetch st).1.error.isSome = true ∧
      (handleSearchUnsigned s e fetch st).1.results = none ∧
      (handleSearchUnsigned s e fetch st).1.countData = none ∧
      (handleSearchUnsigned s e fetch st).1.practitionerData = none ∧
      (handleSearchUnsigned s e fetch st).1.loading = false) := by
  have hcond : ¬ (s.isNone ∨ e.isNone) := by
    rcases s with _ | sv
    · simp at hs
    · rcases e with _ | ev
      · simp at he
      · simp
  rcases hn : fetch "unsigned_notes" with mn | notes <;>
    rcases hc : fetch "unsigned_notes_count" with mc | cnt <;>
      rcases hp : fetch "unsigned_notes_by_practitioner" with mp | pract <;>
        simp_all [handleSearchUnsigned, unsignedQueries, unsignedErrorState,
          exceptOk]

/-- Outcome function for the witnesses: the count query rejects, the
    other queries succeed with an empty result set. -/
def fetchWitness : String → Except String BIResp := fun q =>
  if q = "unsigned_notes_count" then .error "boom" else .ok ⟨[]⟩

/-- Witness for C3: a search with the count query rejecting ends in the
    error state with no data fields populated. -/
theorem C3_witness :
    ((some 0 : Option ℤ).isSome = true ∧
      (some 0 : Option ℤ).isSome = true) ∧
    ((handleSearchUnsigned (some 0) (some 0) fetchWitness
        ⟨false, none, none, none, none⟩).2 = unsignedQueries ∧
     ((∀ q ∈ unsignedQueries, exceptOk (fetchWitness q) = true) →
       (handleSearchUnsigned (some 0) (some 0) fetchWitness
         ⟨false, none, none, none, none⟩).1.error = none ∧
       (handleSearchUnsigned (some 0) (some 0) fetchWitness
         ⟨false, none, none, none, none⟩).1.results.isSome = true ∧
       (handleSearchUnsigned (some 0) (some 0) fetchWitness
         ⟨false, none, none, none, none⟩).1.practitionerData.isSome = true ∧
       (handleSearchUnsigned (some 0) (some 0) fetchWitness
         ⟨false, none, none, none, none⟩).1.loading = false) ∧
     ((∃ q ∈ unsignedQueries, ¬ exceptOk (fetchWitness q) = true) →
       (handleSearchUnsigned (some 0) (some 0) fetchWitness
         ⟨false, none, none, none, none⟩).1.error.isSome = true ∧
       (handleSearchUnsigned (some 0) (some 0) fetchWitness
         ⟨false, none, none, none, none⟩).1.results = none ∧
       (handleSearchUnsigned (some 0) (some 0) fetchWitness
         ⟨false, none, none, none, none⟩).1.countData = none ∧
       (handleSearchUnsigned (some 0) (some 0) fetchWitness
         ⟨false, none, none, none, none⟩).1.practitionerData = none ∧
       (handleSearchUnsigned (some 0) (some 0) fetchWitness
         ⟨false, none, none, none, none⟩).1.loading = false)) :=
  ⟨⟨rfl, rfl⟩, C3_unsigned_join_all (some 0) (some 0) fetchWitness
    ⟨false, none, none, none, none⟩ rfl rfl⟩

/-- **C4.**  When the date range is incomplete, both cited search
    handlers set the inline validation message, dispatch no query, and
    leave every other piece of page state — in particular `loading` —
    unchanged. -/
theorem C4_missing_dates_validation (s e : Option ℤ)
    (fetch : String → Except String BIResp)
    (stA : AuditPageState) (stU : UnsignedPageState)
    (h : s = none ∨ e = none) :
    handleSearchAudit s e fetch stA =
      ({ stA with error := some "Please select both start date and end date" },
       []) ∧
    handleSearchUnsigned s e fetch stU =
      ({ stU with error := some "Please select both start date and end date" },
       []) := by
  have hcond : s.isNone ∨ e.isNone := by
    rcases h with rfl | rfl <;> simp
  constructor
  · rw [handleSearchAudit, if_pos hcond]
  · rw [handleSearchUnsigned, if_pos hcond]

/-- Witness for C4: pressing Search with a missing start date. -/
theorem C4_witness :
    ((none : Option ℤ) = none ∨ (some 0 : Option ℤ) = none) ∧
    (handleSearchAudit none (some 0) fetchWitness ⟨false, none, none⟩ =
      ({ AuditPageState.mk false none none with
          error := some "Please select both start date and end date" }, []) ∧
     handleSearchUnsigned none (some 0) fetchWitness
        ⟨false, none, none, none, none⟩ =
      ({ UnsignedPageState.mk false none none none none with
          error := some "Please select both start date and end date" }, [])) :=
  ⟨Or.inl rfl, C4_missing_dates_validation none (some 0) fetchWitness
    ⟨false, none, none⟩ ⟨false, none, none, none, none⟩ (Or.inl rfl)⟩

/-! ## The auth store (`useAuthStore`, src/unnamed/part_000 lines 21-38)

`AuthSys` pairs the zustand store state with the browser local-storage
entry under the key `access_token` (`none` = key absent).  The store's
initial state reads the token from storage; `setToken` writes the
storage entry only when the token is truthy (`if (token)`), i.e.
non-null and non-empty, and `logout` clears everything. -/

/-- The `User` shape held by the store. -/
structure User where
  username : String
  email : String
  role : String
deriving DecidableEq, Repr

/-- The zustand store fields. -/
structure AuthState where
  user : Option User
  token : Option String
  isAuthenticated : Bool
deriving DecidableEq, Repr

/-- Store plus the `access_token` local-storage entry. -/
structure AuthSys where
  store : AuthState
  storage : Option String
deriving DecidableEq, Repr

/-- JavaScript truthiness of a nullable string: `null` and `''` are
    falsy. -/
def truthyStr : Option String → Bool
  | some s => decide (s ≠ "")
  | none => false

/-- The store's initial state: `token` and `isAuthenticated` are read
    from `localStorage.getItem('access_token')`. -/
def authInit (storage : Option String) : AuthSys :=
  { store := { user := none, token := storage,
               isAuthenticated := truthyStr storage },
    storage := storage }

/-- The three store operations. -/
inductive AuthOp where
  | setUser (u : Option User)
  | setToken (t : Option String)
  | logout
deriving DecidableEq, Repr

/-- Embedding of `setUser`, `setToken` and `logout`. -/
def applyAuthOp (sys : AuthSys) : AuthOp → AuthSys
  | .setUser u =>
      { sys with
        store := { sys.store with user := u, isAuthenticated := u.isSome } }
  | .setToken t =>
      { store :=
          { sys.store with
            token := t,
            isAuthenticated := truthyStr t },
        storage := if truthyStr t then t else none }
  | .logout =>
      { store := { user := none, token := none, isAuthenticated := false },
        storage := none }

/-- **C9, counterexample.**  The claim's invariant says local storage
    holds the token exactly when the store's token is non-null.  After
    `setToken('')` from the empty initial state the store's token is
    the (non-null) empty string, yet `if (token)` is falsy and the
    storage entry is removed. -/
theorem C9_counterexample :
    (applyAuthOp (authInit none) (AuthOp.setToken (some ""))).store.token =
      some "" ∧
    (applyAuthOp (authInit none) (AuthOp.setToken (some ""))).storage =
      none := by
  constructor <;> simp [applyAuthOp, authInit, truthyStr]

/-- The storage entry is determined by the store's token: present with
    the same value exactly when the token is truthy. -/
def authInv (sys : AuthSys) : Prop :=
  sys.storage =
    match sys.store.token with
    | some t => if t = "" then none else some t
    | none => none

theorem authInv_init (storage0 : Option String)
    (h0 : storage0 ≠ some "") : authInv (authInit storage0) := by
  rcases storage0 with _ | t
  · rfl
  · have ht : t ≠ "" := fun h => h0 (by rw [h])
    simp [authInv, authInit, ht]

theorem authInv_step (sys : AuthSys) (op : AuthOp) (h : authInv sys) :
    authInv (applyAuthOp sys op) := by
  cases op with
  | setUser u => simpa [applyAuthOp, authInv] using h
  | setToken t =>
    rcases t with _ | s
    · simp [applyAuthOp, authInv, truthyStr]
    · by_cases hs : s = ""
      · subst hs; simp [applyAuthOp, authInv, truthyStr]
      · simp [applyAuthOp, authInv, truthyStr, hs]
  | logout => rfl

theorem authInv_foldl (ops : List AuthOp) :
    ∀ sys : AuthSys, authInv sys → authInv (ops.foldl applyAuthOp sys) := by
  induction ops with
  | nil => intro sys h; exact h
  | cons op rest ih =>
    intro sys h
    exact ih (applyAuthOp sys op) (authInv_step sys op h)

/-- **C9, amended.**  Starting from any initial storage other than a
    stored empty string, after any sequence of `setUser`, `setToken`
    and `logout` operations local storage holds the token exactly when
    the store's token is truthy (non-null and non-empty) — the original
    claim's "non-null" fails only for the empty string, which
    JavaScript truthiness treats as absent; and `logout` always leaves
    `user` null, `token` null, `isAuthenticated` false and the storage
    entry removed. -/
theorem C9_auth_store_invariant (storage0 : Option String)
    (h0 : storage0 ≠ some "") (ops : List AuthOp) :
    (∀ t, (ops.foldl applyAuthOp (authInit storage0)).store.token = some t →
      t ≠ "" →
      (ops.foldl applyAuthOp (authInit storage0)).storage = some t) ∧
    (((ops.foldl applyAuthOp (authInit storage0)).store.token = none ∨
      (ops.foldl applyAuthOp (authInit storage0)).store.token = some "") →
      (ops.foldl applyAuthOp (authInit storage0)).storage = none) ∧
    (∀ sys : AuthSys, applyAuthOp sys AuthOp.logout =
      ⟨⟨none, none, false⟩, none⟩) := by
  have hinv := authInv_foldl ops (authInit storage0)
    (authInv_init storage0 h0)
  rw [authInv] at hinv
  refine ⟨?_, ?_, fun _ => rfl⟩
  · intro t ht hne
    rw [hinv, ht]
    simp [hne]
  · rintro (ht | ht)
    · rw [hinv, ht]
    · rw [hinv, ht]; simp

/-- Witness for C9: from empty storage, after `setToken('abc')` the
    entry is stored; the logout clause is verified on the resulting
    system. -/
theorem C9_witness :
    (none : Option String) ≠ some "" ∧
    ((∀ t,
      ([AuthOp.setToken (some "abc")].foldl applyAuthOp
          (authInit none)).store.token = some t → t ≠ "" →
      ([AuthOp.setToken (some "abc")].foldl applyAuthOp
          (authInit none)).storage = some t) ∧
     ((([AuthOp.setToken (some "abc")].foldl applyAuthOp
          (authInit none)).store.token = none ∨
       ([AuthOp.setToken (some "abc")].foldl applyAuthOp
          (authInit none)).store.token = some "") →
      ([AuthOp.setToken (some "abc")].foldl applyAuthOp
          (authInit none)).storage = none) ∧
     (∀ sys : AuthSys, applyAuthOp sys AuthOp.logout =
       ⟨⟨none, none, false⟩, none⟩)) :=
  ⟨by simp, C9_auth_store_invariant none (by simp)
    [AuthOp.setToken (some "abc")]⟩

end Dashboard
